import Mathlib

/-!
Verification of the SCORE CLI showcase entrypoint
(src/showcases/cli/main.rs) against its specification.

The development shallowly embeds the program:
* the data model (`AppConfig`, `ScoreConfig`) mirrors the Rust structs;
* JSON values are an inductive `Json`; the serde-derived deserializers are
  embedded as explicit recursive parsers over `Json`;
* the directory tree is an inductive `FSEntry`; `visitDir` mirrors the
  recursive `visit_dir` traversal;
* the selector logic of `main` (the `--examples` branch) is `selectNonInteractive`;
* `run_score` is embedded as `runScore`, parameterised by oracles that give
  the OS outcome of each spawn and each wait, and returning the list of
  observable events next to the optional error.
-/

/-- Mirrors Rust `struct AppConfig` (main.rs lines 32-39): one process to
launch.  `env` is a `HashMap<String, String>` in Rust; here it is kept as the
association list of entries, which is enough for every property below.
`delay : Option Nat` mirrors `Option<u64>` (seconds). -/
structure AppConfig where
  path : String
  dir : Option String
  args : List String
  env : List (String × String)
  delay : Option Nat
deriving Repr, DecidableEq

/-- Mirrors Rust `struct ScoreConfig` (main.rs lines 41-46): one selectable
example, with its ordered apps. -/
structure ScoreConfig where
  name : String
  description : String
  apps : List AppConfig
deriving Repr, DecidableEq

/-- The error of the non-interactive selector branch of `main`
(main.rs lines 105-111): carries the requested filter string and the names of
all discovered examples. -/
inductive SelError where
  | noMatch (requested : String) (available : List String)
deriving Repr, DecidableEq

/-- Model of Rust `str::to_lowercase` (main.rs line 91): lowercases every
character.  `Char.toLower` only lowercases ASCII letters, which agrees with
Rust on every ASCII string; the only comparison the program makes is against
the ASCII literal `"all"`. -/
def toLowercase (s : String) : String :=
  ⟨s.data.map Char.toLower⟩

/-- Model of Rust `str::split(',')`: the (possibly empty) chunks of the
character list between commas.  Splitting the empty string yields one empty
chunk, as in Rust. -/
def splitComma : List Char → List (List Char)
  | [] => [[]]
  | c :: rest =>
    match splitComma rest with
    | [] => [[]]
    | cur :: done =>
      if c = ',' then [] :: cur :: done else (c :: cur) :: done

/-- Model of Rust `str::trim`: drop leading and trailing whitespace
characters. -/
def trimChars (cs : List Char) : List Char :=
  ((cs.dropWhile Char.isWhitespace).reverse.dropWhile Char.isWhitespace).reverse

/-- The comma-split, whitespace-trimmed tokens of a filter string, mirroring
`examples_str.split(',').map(|s| s.trim())` (main.rs line 97). -/
def tokensOf (s : String) : List String :=
  (splitComma s.data).map fun cs => String.mk (trimChars cs)

/-- The `selected_indices` built by the `for (i, config) in configs.iter().enumerate()`
loop of `main` (main.rs lines 99-103): the index of every discovered example
whose name equals one of the requested tokens, in discovery order. -/
def matchedIndices (examplesStr : String) (configs : List ScoreConfig) : List Nat :=
  (configs.enum.filter (fun p => (tokensOf examplesStr).contains p.2.name)).map Prod.fst

/-- The non-interactive selector of `main` (main.rs lines 87-116): if the
filter lowercases to "all", every index is selected in discovery order;
otherwise the indices of the examples whose name equals one of the trimmed
comma-separated tokens are collected in discovery order, and an empty result
is the `noMatch` error. -/
def selectNonInteractive (examplesStr : String) (configs : List ScoreConfig) :
    Except SelError (List Nat) :=
  if toLowercase examplesStr = "all" then
    .ok (List.range configs.length)
  else
    if (matchedIndices examplesStr configs).isEmpty then
      .error (SelError.noMatch examplesStr (configs.map fun c => c.name))
    else
      .ok (matchedIndices examplesStr configs)

example : selectNonInteractive "ALL" [⟨"x", "d", []⟩] = .ok [0] := by rfl

example : selectNonInteractive " b , a" [⟨"a", "", []⟩, ⟨"c", "", []⟩, ⟨"b", "", []⟩]
    = .ok [0, 2] := by rfl

example : selectNonInteractive "z" [⟨"a", "", []⟩]
    = .error (.noMatch "z" ["a"]) := by rfl

/-- `matchedIndices` is a sublist of `range configs.length`: the loop of
main.rs lines 99-103 only ever pushes positions of the enumeration. -/
lemma matchedIndices_sublist_range (s : String) (configs : List ScoreConfig) :
    (matchedIndices s configs).Sublist (List.range configs.length) := by
  have h := List.Sublist.map Prod.fst (List.filter_sublist (p := fun p : Nat × ScoreConfig =>
    (tokensOf s).contains p.2.name) configs.enum)
  rw [List.enum_map_fst] at h
  exact h

/-- Membership in `matchedIndices`: exactly the in-range indices whose
example name occurs among the requested tokens. -/
lemma mem_matchedIndices (s : String) (configs : List ScoreConfig) (i : Nat) :
    i ∈ matchedIndices s configs ↔
      ∃ h : i < configs.length, (configs.get ⟨i, h⟩).name ∈ tokensOf s := by
  unfold matchedIndices
  rw [List.mem_map]
  constructor
  · rintro ⟨⟨j, c⟩, hmem, hfst⟩
    obtain ⟨hen, hq⟩ := List.mem_filter.mp hmem
    obtain ⟨hlt, hget⟩ := List.getElem?_eq_some_iff.mp (List.mk_mem_enum_iff_getElem?.mp hen)
    subst hfst
    refine ⟨hlt, ?_⟩
    rw [List.get_eq_getElem, hget]
    exact List.elem_iff.mp hq
  · rintro ⟨hlt, hname⟩
    refine ⟨(i, configs.get ⟨i, hlt⟩), List.mem_filter.mpr ⟨?_, ?_⟩, rfl⟩
    · exact List.mk_mem_enum_iff_getElem?.mpr (List.getElem?_eq_some_iff.mpr ⟨hlt, rfl⟩)
    · exact List.elem_iff.mpr hname

/-- `matchedIndices` is empty exactly when no discovered example name occurs
among the requested tokens. -/
lemma matchedIndices_eq_nil_iff (s : String) (configs : List ScoreConfig) :
    matchedIndices s configs = [] ↔ ∀ c ∈ configs, c.name ∉ tokensOf s := by
  unfold matchedIndices
  rw [List.map_eq_nil_iff, List.filter_eq_nil_iff]
  constructor
  · intro h c hc hmem
    obtain ⟨i, hi, hget⟩ := List.mem_iff_getElem.mp hc
    exact h (i, c) (List.mk_mem_enum_iff_getElem?.mpr (List.getElem?_eq_some_iff.mpr ⟨hi, hget⟩))
      (List.elem_iff.mpr hmem)
  · intro h p hp hq
    obtain ⟨j, c⟩ := p
    have hc : c ∈ configs :=
      List.getElem?_mem (List.mk_mem_enum_iff_getElem?.mp hp)
    exact h c hc (List.elem_iff.mp hq)

/-- Inversion of the name-list branch: a successful selection is exactly
`matchedIndices`. -/
lemma selectNonInteractive_ok_eq (s : String) (configs : List ScoreConfig) (sel : List Nat)
    (hna : toLowercase s ≠ "all")
    (hok : selectNonInteractive s configs = .ok sel) :
    sel = matchedIndices s configs := by
  unfold selectNonInteractive at hok
  rw [if_neg hna] at hok
  by_cases he : (matchedIndices s configs).isEmpty
  · rw [if_pos he] at hok
    exact absurd hok (by simp)
  · rw [if_neg he] at hok
    injection hok with h
    exact h.symm

/-- Claim C3: for a non-empty discovered example list, a filter that
case-insensitively equals "all" selects every discovered example: the
selection is `range N` (the index list `0..N-1` in discovery order) whose
length is the number of discovered examples and which contains exactly the
in-range indices. -/
theorem selector_all_selects_everything (s : String) (configs : List ScoreConfig)
    (hne : configs ≠ []) (hall : toLowercase s = "all") :
    selectNonInteractive s configs = .ok (List.range configs.length) ∧
    (List.range configs.length).length = configs.length ∧
    ∀ i, i ∈ List.range configs.length ↔ i < configs.length := by
  refine ⟨?_, List.length_range _, fun i => List.mem_range⟩
  unfold selectNonInteractive
  rw [if_pos hall]

theorem selector_all_selects_everything_witness :
    selectNonInteractive "All" [⟨"x", "d", []⟩] = .ok (List.range 1) ∧
    (List.range 1).length = 1 ∧ ∀ i, i ∈ List.range 1 ↔ i < 1 :=
  selector_all_selects_everything "All" [⟨"x", "d", []⟩] (by decide) (by rfl)

/-- Claim C4: for a non-"all" filter, the selection returned by the
non-interactive selector contains exactly the indices of the discovered
examples whose name equals one of the comma-split, whitespace-trimmed tokens;
it is strictly increasing (discovery order, not request order), duplicate-free,
and every index is in range. -/
theorem selector_name_list_selection (s : String) (configs : List ScoreConfig)
    (sel : List Nat) (hna : toLowercase s ≠ "all")
    (hok : selectNonInteractive s configs = .ok sel) :
    (∀ i, i ∈ sel ↔ ∃ h : i < configs.length, (configs.get ⟨i, h⟩).name ∈ tokensOf s) ∧
    List.Pairwise (· < ·) sel ∧
    sel.Nodup ∧
    ∀ i ∈ sel, i < configs.length := by
  have hsel := selectNonInteractive_ok_eq s configs sel hna hok
  subst hsel
  have hpair : List.Pairwise (· < ·) (matchedIndices s configs) :=
    List.Pairwise.sublist (matchedIndices_sublist_range s configs)
      (List.pairwise_lt_range configs.length)
  refine ⟨mem_matchedIndices s configs, hpair, hpair.imp Nat.ne_of_lt, ?_⟩
  intro i hi
  exact List.mem_range.mp ((matchedIndices_sublist_range s configs).subset hi)

theorem selector_name_list_selection_witness :
    selectNonInteractive " b , a" [⟨"a", "", []⟩, ⟨"c", "", []⟩, ⟨"b", "", []⟩] = .ok [0, 2] ∧
    List.Pairwise (· < ·) [0, 2] ∧
    (0 : Nat) ∈ ([0, 2] : List Nat) :=
  ⟨by rfl,
   (selector_name_list_selection " b , a" [⟨"a", "", []⟩, ⟨"c", "", []⟩, ⟨"b", "", []⟩]
      [0, 2] (by decide) (by rfl)).2.1,
   ((selector_name_list_selection " b , a" [⟨"a", "", []⟩, ⟨"c", "", []⟩, ⟨"b", "", []⟩]
      [0, 2] (by decide) (by rfl)).1 0).mpr ⟨by decide, by decide⟩⟩

/-- Claim C5: for a non-"all" filter, the selector fails if and only if no
discovered example name matches any requested token, and the only possible
error carries the original requested string together with the names of all
discovered examples. -/
theorem selector_no_match_error (s : String) (configs : List ScoreConfig)
    (hna : toLowercase s ≠ "all") :
    (selectNonInteractive s configs =
        .error (.noMatch s (configs.map fun c => c.name)) ↔
      ∀ c ∈ configs, c.name ∉ tokensOf s) ∧
    ∀ e, selectNonInteractive s configs = .error e →
      e = .noMatch s (configs.map fun c => c.name) := by
  unfold selectNonInteractive
  rw [if_neg hna]
  by_cases he : (matchedIndices s configs).isEmpty
  · rw [if_pos he]
    refine ⟨⟨fun _ => ?_, fun _ => rfl⟩, fun e h => ?_⟩
    · exact (matchedIndices_eq_nil_iff s configs).mp (List.isEmpty_iff.mp he)
    · injection h with h2
      exact h2.symm
  · rw [if_neg he]
    refine ⟨⟨fun h => absurd h (by simp), fun h => ?_⟩, fun e h => absurd h (by simp)⟩
    exact absurd (List.isEmpty_iff.mpr ((matchedIndices_eq_nil_iff s configs).mpr h)) he

theorem selector_no_match_error_witness :
    selectNonInteractive "z" [⟨"a", "", []⟩] = .error (.noMatch "z" ["a"]) :=
  (selector_no_match_error "z" [⟨"a", "", []⟩] (by decide)).1.mpr (by decide)

/-- Claim C9: because the "all" test happens before name matching, an example
whose own name lowercases to "all" can never be selected individually by
naming it: the filter consisting of exactly that name takes the select-all
branch and yields every discovered index. -/
theorem selector_all_shadows_example_named_all (configs : List ScoreConfig)
    (i : Fin configs.length)
    (hname : toLowercase (configs.get i).name = "all") :
    selectNonInteractive (configs.get i).name configs = .ok (List.range configs.length) ∧
    ∀ j, j < configs.length → j ∈ List.range configs.length := by
  refine ⟨?_, fun j hj => List.mem_range.mpr hj⟩
  unfold selectNonInteractive
  rw [if_pos hname]

theorem selector_all_shadows_example_named_all_witness :
    selectNonInteractive "All" [⟨"All", "d", []⟩, ⟨"b", "", []⟩] = .ok (List.range 2) :=
  (selector_all_shadows_example_named_all [⟨"All", "d", []⟩, ⟨"b", "", []⟩]
    ⟨0, by decide⟩ (by rfl)).1

/-- Model of a parsed `serde_json::Value`.  A number is either integer-backed
(serde_json stores it as `u64`/`i64`), carrying its exact integer value, or
float-backed (`isFloat = true`: the literal had a decimal point or exponent),
in which case the unsigned-integer deserializer rejects it regardless of the
value, so only the flag matters here. -/
inductive Json where
  | null
  | bool (b : Bool)
  | num (n : Int) (isFloat : Bool)
  | str (s : String)
  | arr (elems : List Json)
  | obj (fields : List (String × Json))

/-- Access of a JSON object field by key (first occurrence). -/
def lookupField (fields : List (String × Json)) (key : String) : Option Json :=
  match fields with
  | [] => none
  | (k, v) :: rest => if k = key then some v else lookupField rest key

/-- Deserializing a required `String` field. -/
def getString : Json → Except String String
  | .str s => .ok s
  | _ => .error "invalid type: expected a string"

/-- Deserializing `Option<String>` (the `dir` field): absent or `null` is
`none`. -/
def getOptString : Option Json → Except String (Option String)
  | none => .ok none
  | some .null => .ok none
  | some (.str s) => .ok (some s)
  | some _ => .error "invalid type: expected a string or null"

/-- Deserializing the elements of `Vec<String>`. -/
def getStringList : List Json → Except String (List String)
  | [] => .ok []
  | v :: rest =>
    match getString v with
    | .error e => .error e
    | .ok s =>
      match getStringList rest with
      | .error e => .error e
      | .ok ss => .ok (s :: ss)

/-- Deserializing `Vec<String>` (the `args` field). -/
def getArgs : Json → Except String (List String)
  | .arr xs => getStringList xs
  | _ => .error "invalid type: expected an array"

/-- Deserializing the entries of `HashMap<String, String>`. -/
def getEnvEntries : List (String × Json) → Except String (List (String × String))
  | [] => .ok []
  | (k, v) :: rest =>
    match getString v with
    | .error e => .error e
    | .ok s =>
      match getEnvEntries rest with
      | .error e => .error e
      | .ok es => .ok ((k, s) :: es)

/-- Deserializing `HashMap<String, String>` (the `env` field). -/
def getEnv : Json → Except String (List (String × String))
  | .obj kvs => getEnvEntries kvs
  | _ => .error "invalid type: expected a map"

/-- Deserializing `Option<u64>` (the `delay` field, main.rs line 38): absent
or `null` is `none`; an integer-backed number in `[0, 2^64)` succeeds; a
negative integer, a float-backed number, an integer out of the `u64` range,
and any non-number value are errors. -/
def getOptU64 : Option Json → Except String (Option Nat)
  | none => .ok none
  | some .null => .ok none
  | some (.num n isFloat) =>
    if isFloat then .error "invalid type: floating point number"
    else if n < 0 then .error "invalid value: negative integer"
    else if n < 2 ^ 64 then .ok (some n.toNat)
    else .error "invalid value: integer out of range of u64"
  | some _ => .error "invalid type: expected an unsigned integer or null"

/-- The serde-derived deserializer of `AppConfig` (main.rs lines 32-39):
`path`, `args` and `env` are required, `dir` and `delay` are optional. -/
def parseAppConfig (v : Json) : Except String AppConfig :=
  match v with
  | .obj fields =>
    match lookupField fields "path" with
    | none => .error "missing field path"
    | some pv =>
      match getString pv with
      | .error e => .error e
      | .ok path =>
        match getOptString (lookupField fields "dir") with
        | .error e => .error e
        | .ok dir =>
          match lookupField fields "args" with
          | none => .error "missing field args"
          | some av =>
            match getArgs av with
            | .error e => .error e
            | .ok args =>
              match lookupField fields "env" with
              | none => .error "missing field env"
              | some ev =>
                match getEnv ev with
                | .error e => .error e
                | .ok env =>
                  match getOptU64 (lookupField fields "delay") with
                  | .error e => .error e
                  | .ok delay => .ok ⟨path, dir, args, env, delay⟩
  | _ => .error "invalid type: expected an object"

/-- Deserializing `Vec<AppConfig>`: element order preserved, first error
aborts. -/
def parseAppConfigs : List Json → Except String (List AppConfig)
  | [] => .ok []
  | v :: rest =>
    match parseAppConfig v with
    | .error e => .error e
    | .ok c =>
      match parseAppConfigs rest with
      | .error e => .error e
      | .ok cs => .ok (c :: cs)

/-- The serde-derived deserializer of `ScoreConfig` (main.rs lines 41-46):
`name`, `description` and `apps` are all required. -/
def parseScoreConfig (v : Json) : Except String ScoreConfig :=
  match v with
  | .obj fields =>
    match lookupField fields "name" with
    | none => .error "missing field name"
    | some nv =>
      match getString nv with
      | .error e => .error e
      | .ok name =>
        match lookupField fields "description" with
        | none => .error "missing field description"
        | some dv =>
          match getString dv with
          | .error e => .error e
          | .ok description =>
            match lookupField fields "apps" with
            | none => .error "missing field apps"
            | some av =>
              match av with
              | .arr xs =>
                match parseAppConfigs xs with
                | .error e => .error e
                | .ok apps => .ok ⟨name, description, apps⟩
              | _ => .error "invalid type: expected an array for apps"
  | _ => .error "invalid type: expected an object"

/-- Deserializing `Vec<ScoreConfig>` (the array form of a descriptor file,
main.rs lines 172-175): element order preserved, first error aborts. -/
def parseScoreConfigs : List Json → Except String (List ScoreConfig)
  | [] => .ok []
  | v :: rest =>
    match parseScoreConfig v with
    | .error e => .error e
    | .ok c =>
      match parseScoreConfigs rest with
      | .error e => .error e
      | .ok cs => .ok (c :: cs)

example :
    parseScoreConfig (.obj [("name", .str "x"), ("description", .str "d"),
      ("apps", .arr [.obj [("path", .str "/bin/true"), ("args", .arr []),
        ("env", .obj []), ("delay", .num 0 false)]])]) =
    .ok ⟨"x", "d", [⟨"/bin/true", none, [], [], some 0⟩]⟩ := by rfl

example :
    parseAppConfig (.obj [("path", .str "/bin/true"), ("args", .arr []),
      ("env", .obj []), ("delay", .num (-1) false)]) =
    .error "invalid value: negative integer" := by rfl

/-- The fate of reading one regular file: `fs::read_to_string` may fail,
`serde_json::from_str` may reject the text, or a JSON value is obtained. -/
inductive FileData where
  | unreadable
  | badSyntax
  | parsed (v : Json)

/-- One directory entry, as observed by `visit_dir` (main.rs lines 154-184).
A symbolic link carries the entry it resolves to (`none` when dangling);
`visit_dir` never looks at it. -/
inductive FSEntry where
  | symlink (name : String) (target : Option FSEntry)
  | file (name : String) (data : FileData)
  | dir (name : String) (entries : List FSEntry)

/-- The error cases of `visit_dir`, one per `with_context` site
(main.rs lines 169-178). -/
inductive LoadError where
  | fileUnreadable (path : String)
  | invalidSyntax (path : String)
  | invalidArray (path : String) (detail : String)
  | invalidValue (path : String) (detail : String)
deriving Repr, DecidableEq

/-- Mirrors `is_score_file` (main.rs lines 186-191): the file name ends with
the fixed suffix `.score.json`. -/
def isScoreFileName (name : String) : Bool :=
  List.isSuffixOf ".score.json".data name.data

/-- Mirrors `visit_dir` (main.rs lines 154-184) on the entries of one
directory, threading the accumulated `configs` vector: symbolic links are
skipped, directories are recursed into depth-first, files whose name carries
the descriptor suffix are parsed (array form extends, object form pushes one),
all other files are ignored, and the first failure aborts the whole scan. -/
def visitDir : List FSEntry → List ScoreConfig → Except LoadError (List ScoreConfig)
  | [], configs => .ok configs
  | .symlink _ _ :: rest, configs => visitDir rest configs
  | .dir _ sub :: rest, configs =>
    match visitDir sub configs with
    | .error e => .error e
    | .ok configs2 => visitDir rest configs2
  | .file name data :: rest, configs =>
    if isScoreFileName name then
      match data with
      | .unreadable => .error (.fileUnreadable name)
      | .badSyntax => .error (.invalidSyntax name)
      | .parsed v =>
        match v with
        | .arr xs =>
          match parseScoreConfigs xs with
          | .error d => .error (.invalidArray name d)
          | .ok found => visitDir rest (configs ++ found)
        | _ =>
          match parseScoreConfig v with
          | .error d => .error (.invalidValue name d)
          | .ok c => visitDir rest (configs ++ [c])
    else visitDir rest configs

/-- The number of descriptor files an entry list holds: regular files whose
name carries the descriptor suffix, anywhere below a directory; symbolic
links contribute nothing. -/
def scoreFileCount : List FSEntry → Nat
  | [] => 0
  | .symlink _ _ :: rest => scoreFileCount rest
  | .dir _ sub :: rest => scoreFileCount sub + scoreFileCount rest
  | .file name _ :: rest =>
    (if isScoreFileName name then 1 else 0) + scoreFileCount rest

example :
    visitDir [.file "a.score.json" (.parsed (.obj [("name", .str "x"),
      ("description", .str "d"), ("apps", .arr [])]))] [] =
    .ok [⟨"x", "d", []⟩] := by simp only [visitDir]; rfl

example :
    visitDir [.symlink "b.score.json" none, .dir "sub" [.file "nested.score.json"
      (.parsed (.arr []))], .file "other.txt" .unreadable] [] = .ok [] := by
  simp only [visitDir]; rfl

/-- The two failure shapes of `main` before any selection happens
(main.rs lines 80-85): a loader failure, or an empty discovery result. -/
inductive MainError where
  | load (e : LoadError)
  | noDescriptors (rootDir : String)
deriving Repr, DecidableEq

/-- Lines 80-85 of main.rs: drive `visit_dir` from the root directory and fail
with the distinct "No *.score.json files found" error if and only if the scan
succeeded but produced nothing, so that neither selection nor running is ever
reached on an empty discovery result. -/
def discoverAndCheck (rootDir : String) (entries : List FSEntry) :
    Except MainError (List ScoreConfig) :=
  match visitDir entries [] with
  | .error e => .error (.load e)
  | .ok configs =>
    if configs.isEmpty then .error (.noDescriptors rootDir) else .ok configs

/-- A scan over a tree that holds no descriptor file reads nothing and leaves
the accumulator untouched. -/
lemma visitDir_no_score (entries : List FSEntry) :
    ∀ acc, scoreFileCount entries = 0 → visitDir entries acc = .ok acc := by
  induction entries using scoreFileCount.induct with
  | case1 =>
    intro acc h
    simp only [visitDir]
  | case2 name target rest ih =>
    intro acc h
    rw [scoreFileCount] at h
    simp only [visitDir]
    exact ih acc h
  | case3 name sub rest ihsub ihrest =>
    intro acc h
    rw [scoreFileCount] at h
    obtain ⟨h1, h2⟩ := Nat.add_eq_zero.mp h
    simp only [visitDir, ihsub acc h1]
    exact ihrest acc h2
  | case4 name data rest ih =>
    intro acc h
    rw [scoreFileCount] at h
    obtain ⟨h1, h2⟩ := Nat.add_eq_zero.mp h
    have hns : isScoreFileName name = false := by
      by_cases hb : isScoreFileName name
      · rw [if_pos hb] at h1
        exact absurd h1 one_ne_zero
      · exact Bool.eq_false_iff.mpr hb
    have hns2 : ¬ isScoreFileName name = true := by
      rw [hns]
      exact Bool.false_ne_true
    cases data with
    | unreadable =>
      simp only [visitDir]
      rw [if_neg hns2]
      exact ih acc h2
    | badSyntax =>
      simp only [visitDir]
      rw [if_neg hns2]
      exact ih acc h2
    | parsed v =>
      cases v <;> simp only [visitDir] <;> rw [if_neg hns2] <;> exact ih acc h2

/-- `Vec<ScoreConfig>` deserialization succeeds with one output element per
input element. -/
lemma parseScoreConfigs_ok_length :
    ∀ (xs : List Json) (cs : List ScoreConfig),
      parseScoreConfigs xs = .ok cs → cs.length = xs.length := by
  intro xs
  induction xs with
  | nil =>
    intro cs h
    simp only [parseScoreConfigs] at h
    injection h with h2
    rw [← h2]
    rfl
  | cons v rest ih =>
    intro cs h
    simp only [parseScoreConfigs] at h
    cases hv : parseScoreConfig v with
    | error e =>
      rw [hv] at h
      exact Except.noConfusion h
    | ok c =>
      rw [hv] at h
      cases hr : parseScoreConfigs rest with
      | error e =>
        rw [hr] at h
        exact Except.noConfusion h
      | ok cs2 =>
        rw [hr] at h
        injection h with h2
        rw [← h2]
        simp [ih cs2 hr]

/-- `Vec<ScoreConfig>` deserialization is element-wise and order-preserving:
the k-th output comes from the k-th input. -/
lemma parseScoreConfigs_ok_get :
    ∀ (xs : List Json) (cs : List ScoreConfig),
      parseScoreConfigs xs = .ok cs →
      ∀ k (hk1 : k < xs.length) (hk2 : k < cs.length),
        parseScoreConfig (xs.get ⟨k, hk1⟩) = .ok (cs.get ⟨k, hk2⟩) := by
  intro xs
  induction xs with
  | nil =>
    intro cs h k hk1 hk2
    exact absurd hk1 (Nat.not_lt_zero k)
  | cons v rest ih =>
    intro cs h k hk1 hk2
    simp only [parseScoreConfigs] at h
    cases hv : parseScoreConfig v with
    | error e =>
      rw [hv] at h
      exact Except.noConfusion h
    | ok c =>
      rw [hv] at h
      cases hr : parseScoreConfigs rest with
      | error e =>
        rw [hr] at h
        exact Except.noConfusion h
      | ok cs2 =>
        rw [hr] at h
        injection h with h2
        subst h2
        cases k with
        | zero => exact hv
        | succ k2 =>
          exact ih cs2 hr k2 (Nat.lt_of_succ_lt_succ hk1) (Nat.lt_of_succ_lt_succ hk2)

/-- Claim C7: a symbolic-link entry, whatever its name (even one carrying the
descriptor suffix) and whatever it points at, is skipped entirely by the
traversal: the scan proceeds exactly as if the entry were absent, it is never
parsed, never recursed into, and skipping it is not an error. -/
theorem loader_skips_symlinks (name : String) (target : Option FSEntry)
    (rest : List FSEntry) (acc : List ScoreConfig) :
    visitDir (.symlink name target :: rest) acc = visitDir rest acc ∧
    visitDir [.symlink name target] acc = .ok acc := by
  constructor <;> simp only [visitDir]

/-- Claim C8: a readable tree with zero descriptor files makes the loader
succeed with the empty sequence, and the entry orchestrator then fails with
the distinct "no descriptors found" error instead of ever selecting or
running anything. -/
theorem loader_empty_tree_and_orchestrator (rootDir : String) (entries : List FSEntry)
    (h : scoreFileCount entries = 0) :
    visitDir entries [] = .ok [] ∧
    discoverAndCheck rootDir entries = .error (.noDescriptors rootDir) := by
  have hv := visitDir_no_score entries [] h
  refine ⟨hv, ?_⟩
  unfold discoverAndCheck
  rw [hv]
  rfl

theorem loader_empty_tree_and_orchestrator_witness :
    visitDir [FSEntry.symlink "a.score.json" none,
      FSEntry.dir "d" [FSEntry.file "x.txt" FileData.unreadable]] [] = .ok [] ∧
    discoverAndCheck "/showcases" [FSEntry.symlink "a.score.json" none,
      FSEntry.dir "d" [FSEntry.file "x.txt" FileData.unreadable]] =
      .error (.noDescriptors "/showcases") :=
  loader_empty_tree_and_orchestrator "/showcases"
    [FSEntry.symlink "a.score.json" none,
      FSEntry.dir "d" [FSEntry.file "x.txt" FileData.unreadable]]
    (by simp only [scoreFileCount]; rfl)

/-- Claim C6: processing one successfully parsed descriptor file whose
top-level value is an object appends exactly one `ScoreConfig` to the
accumulated result; a top-level array of N elements appends exactly N, in
array order (the k-th appended record parses from the k-th array element). -/
theorem loader_object_and_array_shapes (fname : String)
    (hs : isScoreFileName fname = true) :
    (∀ fields c rest acc, parseScoreConfig (.obj fields) = .ok c →
      visitDir (.file fname (.parsed (.obj fields)) :: rest) acc =
        visitDir rest (acc ++ [c])) ∧
    (∀ xs cs rest acc, parseScoreConfigs xs = .ok cs →
      visitDir (.file fname (.parsed (.arr xs)) :: rest) acc =
        visitDir rest (acc ++ cs) ∧
      cs.length = xs.length ∧
      ∀ k (hk1 : k < xs.length) (hk2 : k < cs.length),
        parseScoreConfig (xs.get ⟨k, hk1⟩) = .ok (cs.get ⟨k, hk2⟩)) := by
  constructor
  · intro fields c rest acc hp
    simp only [visitDir]
    rw [if_pos hs, hp]
  · intro xs cs rest acc hp
    refine ⟨?_, parseScoreConfigs_ok_length xs cs hp, parseScoreConfigs_ok_get xs cs hp⟩
    simp only [visitDir]
    rw [if_pos hs, hp]

theorem loader_object_and_array_shapes_witness :
    isScoreFileName "a.score.json" = true ∧
    visitDir [FSEntry.file "a.score.json" (FileData.parsed (Json.obj
      [("name", Json.str "x"), ("description", Json.str "d"), ("apps", Json.arr [])]))] [] =
      visitDir [] ([] ++ [(⟨"x", "d", []⟩ : ScoreConfig)]) :=
  ⟨by decide,
   (loader_object_and_array_shapes "a.score.json" (by decide)).1
     [("name", Json.str "x"), ("description", Json.str "d"), ("apps", Json.arr [])]
     ⟨"x", "d", []⟩ [] [] (by rfl)⟩

/-- Inversion of a successful `AppConfig` deserialization: the `delay` field
of the app object deserialized, as `Option<u64>`, to exactly the app's
`delay`. -/
lemma parseAppConfig_ok_delay (fields : List (String × Json)) (app : AppConfig)
    (h : parseAppConfig (.obj fields) = .ok app) :
    getOptU64 (lookupField fields "delay") = .ok app.delay := by
  unfold parseAppConfig at h
  cases h1 : lookupField fields "path" with
  | none =>
    simp only [h1] at h
    exact Except.noConfusion h
  | some pv =>
    simp only [h1] at h
    cases h2 : getString pv with
    | error e => simp only [h2] at h; exact Except.noConfusion h
    | ok path =>
      simp only [h2] at h
      cases h3 : getOptString (lookupField fields "dir") with
      | error e => simp only [h3] at h; exact Except.noConfusion h
      | ok dir =>
        simp only [h3] at h
        cases h4 : lookupField fields "args" with
        | none => simp only [h4] at h; exact Except.noConfusion h
        | some av =>
          simp only [h4] at h
          cases h5 : getArgs av with
          | error e => simp only [h5] at h; exact Except.noConfusion h
          | ok args =>
            simp only [h5] at h
            cases h6 : lookupField fields "env" with
            | none => simp only [h6] at h; exact Except.noConfusion h
            | some ev =>
              simp only [h6] at h
              cases h7 : getEnv ev with
              | error e => simp only [h7] at h; exact Except.noConfusion h
              | ok env =>
                simp only [h7] at h
                cases h8 : getOptU64 (lookupField fields "delay") with
                | error e => simp only [h8] at h; exact Except.noConfusion h
                | ok delay =>
                  simp only [h8] at h
                  injection h with h9
                  rw [← h9]

/-- Inversion of a successful `Option<u64>` deserialization to `some`: the
JSON field was present and was an integer-backed, non-negative number with
exactly that value. -/
lemma getOptU64_ok_some (o : Option Json) (d : Nat)
    (h : getOptU64 o = .ok (some d)) :
    o = some (.num (d : Int) false) := by
  match o with
  | none =>
    simp only [getOptU64] at h
    injection h with h2
    exact Option.noConfusion h2
  | some .null =>
    simp only [getOptU64] at h
    injection h with h2
    exact Option.noConfusion h2
  | some (.bool b) => simp only [getOptU64] at h; exact Except.noConfusion h
  | some (.str s) => simp only [getOptU64] at h; exact Except.noConfusion h
  | some (.arr xs) => simp only [getOptU64] at h; exact Except.noConfusion h
  | some (.obj fs) => simp only [getOptU64] at h; exact Except.noConfusion h
  | some (.num n isF) =>
    simp only [getOptU64] at h
    by_cases hf : isF = true
    · rw [if_pos hf] at h
      exact Except.noConfusion h
    · rw [if_neg hf] at h
      by_cases hn : n < 0
      · rw [if_pos hn] at h
        exact Except.noConfusion h
      · rw [if_neg hn] at h
        by_cases hr : n < 2 ^ 64
        · rw [if_pos hr] at h
          injection h with h2
          injection h2 with h3
          have hn2 : 0 ≤ n := Int.not_lt.mp hn
          have hdn : (d : Int) = n := by
            rw [← h3]
            exact Int.toNat_of_nonneg hn2
          rw [hdn, Bool.eq_false_iff.mpr hf]
        · rw [if_neg hr] at h
          exact Except.noConfusion h

/-- If a `Vec<AppConfig>` deserialization succeeds, every element
deserialized successfully. -/
lemma parseAppConfigs_ok_forall :
    ∀ (xs : List Json) (l : List AppConfig), parseAppConfigs xs = .ok l →
      ∀ a ∈ xs, ∃ c, parseAppConfig a = .ok c := by
  intro xs
  induction xs with
  | nil =>
    intro l h a ha
    exact absurd ha (List.not_mem_nil a)
  | cons v rest ih =>
    intro l h a ha
    simp only [parseAppConfigs] at h
    cases hv : parseAppConfig v with
    | error e =>
      rw [hv] at h
      exact Except.noConfusion h
    | ok c =>
      rw [hv] at h
      cases hr : parseAppConfigs rest with
      | error e =>
        rw [hr] at h
        exact Except.noConfusion h
      | ok cs =>
        rcases List.mem_cons.mp ha with rfl | ha2
        · exact ⟨c, hv⟩
        · exact ih cs hr a ha2

/-- Inversion of a successful `ScoreConfig` deserialization: the `apps` field
was a JSON array whose element-wise deserialization produced exactly the
config's apps. -/
lemma parseScoreConfig_ok_apps (sfields : List (String × Json)) (config : ScoreConfig)
    (h : parseScoreConfig (.obj sfields) = .ok config) :
    ∃ xs, lookupField sfields "apps" = some (.arr xs) ∧
      parseAppConfigs xs = .ok config.apps := by
  unfold parseScoreConfig at h
  cases h1 : lookupField sfields "name" with
  | none => simp only [h1] at h; exact Except.noConfusion h
  | some nv =>
    simp only [h1] at h
    cases h2 : getString nv with
    | error e => simp only [h2] at h; exact Except.noConfusion h
    | ok name =>
      simp only [h2] at h
      cases h3 : lookupField sfields "description" with
      | none => simp only [h3] at h; exact Except.noConfusion h
      | some dv =>
        simp only [h3] at h
        cases h4 : getString dv with
        | error e => simp only [h4] at h; exact Except.noConfusion h
        | ok desc =>
          simp only [h4] at h
          cases h5 : lookupField sfields "apps" with
          | none => simp only [h5] at h; exact Except.noConfusion h
          | some av =>
            simp only [h5] at h
            cases av with
            | arr xs =>
              cases h6 : parseAppConfigs xs with
              | error e => simp only [h6] at h; exact Except.noConfusion h
              | ok apps =>
                simp only [h6] at h
                injection h with h7
                refine ⟨xs, rfl, ?_⟩
                rw [← h7]
                exact h6
            | null => exact Except.noConfusion h
            | bool b => exact Except.noConfusion h
            | num n isF => exact Except.noConfusion h
            | str s => exact Except.noConfusion h
            | obj fs => exact Except.noConfusion h

/-- Claim C10: because `delay` deserializes as `Option<u64>`, an app object
whose `delay` field holds a negative or float-backed (non-integer) number
fails deserialization; an app failure makes the whole descriptor fail; a
descriptor failure aborts the scan with the malformed-descriptor error; and
conversely every `delay` the loader ever yields was a non-negative integer
field, so the runner never receives a negative delay. -/
theorem loader_delay_nonnegative :
    (∀ afields (n : Int) (isF : Bool),
      lookupField afields "delay" = some (.num n isF) → (n < 0 ∨ isF = true) →
      ∃ d, parseAppConfig (.obj afields) = .error d) ∧
    (∀ sfields xs a, lookupField sfields "apps" = some (.arr xs) → a ∈ xs →
      (∃ d, parseAppConfig a = .error d) →
      ∃ e, parseScoreConfig (.obj sfields) = .error e) ∧
    (∀ fname sfields rest acc d, isScoreFileName fname = true →
      parseScoreConfig (.obj sfields) = .error d →
      visitDir (.file fname (.parsed (.obj sfields)) :: rest) acc =
        .error (.invalidValue fname d)) ∧
    (∀ afields app (d : Nat), parseAppConfig (.obj afields) = .ok app →
      app.delay = some d →
      lookupField afields "delay" = some (.num (d : Int) false)) := by
  refine ⟨?_, ?_, ?_, ?_⟩
  · intro afields n isF hl hbad
    cases hres : parseAppConfig (.obj afields) with
    | error d => exact ⟨d, rfl⟩
    | ok app =>
      exfalso
      have hd := parseAppConfig_ok_delay afields app hres
      rw [hl] at hd
      simp only [getOptU64] at hd
      rcases hbad with hneg | hfl
      · by_cases hf : isF = true
        · rw [if_pos hf] at hd
          exact Except.noConfusion hd
        · rw [if_neg hf, if_pos hneg] at hd
          exact Except.noConfusion hd
      · rw [if_pos hfl] at hd
        exact Except.noConfusion hd
  · intro sfields xs a hl ha hbad
    obtain ⟨d, had⟩ := hbad
    cases hres : parseScoreConfig (.obj sfields) with
    | error e => exact ⟨e, rfl⟩
    | ok config =>
      exfalso
      obtain ⟨xs2, hl2, hp⟩ := parseScoreConfig_ok_apps sfields config hres
      rw [hl] at hl2
      injection hl2 with h2
      injection h2 with h3
      subst h3
      obtain ⟨c, hc⟩ := parseAppConfigs_ok_forall xs config.apps hp a ha
      rw [had] at hc
      exact Except.noConfusion hc
  · intro fname sfields rest acc d hs hp
    simp only [visitDir]
    rw [if_pos hs, hp]
  · intro afields app d hok hd
    have h1 := parseAppConfig_ok_delay afields app hok
    rw [hd] at h1
    exact getOptU64_ok_some _ d h1

theorem loader_delay_nonnegative_witness :
    ∃ d, parseAppConfig (Json.obj [("path", Json.str "/bin/true"),
      ("args", Json.arr []), ("env", Json.obj []),
      ("delay", Json.num (-1) false)]) = .error d :=
  loader_delay_nonnegative.1
    [("path", Json.str "/bin/true"), ("args", Json.arr []), ("env", Json.obj []),
      ("delay", Json.num (-1) false)] (-1) false (by rfl) (Or.inl (by decide))

/-- The OS outcome of one `Command::spawn` call (main.rs lines 224-226). -/
inductive SpawnOutcome where
  | ok
  | fail
deriving Repr, DecidableEq

/-- The OS outcome of one `Child::wait` call (main.rs lines 235-237): either
the wait itself fails, or the child exits and `success` tells whether its
exit status was success. -/
inductive WaitOutcome where
  | fail
  | exited (success : Bool)
deriving Repr, DecidableEq

/-- The observable actions of `run_score`, with 1-based app indices as
displayed.  `appKilled` models a runner-initiated termination of a child;
`run_score` contains no kill call at all, so no execution of the embedding
emits it — which is what lets "no already-spawned child is terminated by the
runner" be stated as kill-freeness of the event trace. -/
inductive Event where
  | delayWait (idx : Nat) (secs : Nat)
  | appStarting (idx : Nat) (path : String)
  | appSpawned (idx : Nat) (path : String)
  | appFinished (idx : Nat) (path : String)
  | appKilled (idx : Nat)
  | exampleFinished (name : String)
deriving Repr, DecidableEq

/-- Whether an event is a runner-initiated child termination. -/
def Event.isKill : Event → Bool
  | .appKilled _ => true
  | _ => false

/-- Whether an event reports a child as finished (emitted by the wait
phase only). -/
def Event.isFinishedApp : Event → Bool
  | .appFinished _ _ => true
  | _ => false

/-- The two error shapes of `run_score`: the spawn context of main.rs
line 226 and the wait context of main.rs line 237, each naming the 1-based
app index and the app's executable path. -/
inductive RunError where
  | spawnError (idx : Nat) (path : String)
  | waitError (idx : Nat) (path : String)
deriving Repr, DecidableEq

/-- The events of the optional pre-spawn delay (main.rs lines 203-213):
a wait is logged only when `delay` is present and positive. -/
def delayEvents (idx : Nat) (delay : Option Nat) : List Event :=
  match delay with
  | some d => if d > 0 then [Event.delayWait idx d] else []
  | none => []

/-- The spawn loop of `run_score` (main.rs lines 200-231), with `i` the
0-based position reached so far: per app, optionally sleep, then spawn; a
spawn failure returns immediately with the error naming the 1-based index and
path; a success pushes `(i + 1, path)` onto the children vector.  The spawn
oracle is keyed by the 1-based index.  Returns (events, children, error). -/
def spawnLoop (apps : List AppConfig) (i : Nat) (spawn : Nat → SpawnOutcome) :
    List Event × List (Nat × String) × Option RunError :=
  match apps with
  | [] => ([], [], none)
  | app :: rest =>
    match spawn (i + 1) with
    | .fail =>
      (delayEvents (i + 1) app.delay ++ [.appStarting (i + 1) app.path], [],
        some (.spawnError (i + 1) app.path))
    | .ok =>
      let r := spawnLoop rest (i + 1) spawn
      (delayEvents (i + 1) app.delay ++
          [.appStarting (i + 1) app.path, .appSpawned (i + 1) app.path] ++ r.1,
        (i + 1, app.path) :: r.2.1, r.2.2)

/-- The wait loop of `run_score` (main.rs lines 234-244): every successfully
spawned child is waited on in spawn order; a wait failure aborts the
remaining waits with the error naming the stored 1-based index and path; the
child's own exit status is inspected but deliberately ignored (the failure
path is commented out in the source), and the app is reported finished
either way. -/
def waitLoop (children : List (Nat × String)) (wait : Nat → WaitOutcome) :
    List Event × Option RunError :=
  match children with
  | [] => ([], none)
  | (idx, path) :: rest =>
    match wait idx with
    | .fail => ([], some (.waitError idx path))
    | .exited _ =>
      let r := waitLoop rest wait
      (.appFinished idx path :: r.1, r.2)

/-- `run_score` (main.rs lines 193-248): spawn all apps, then wait on all
children, then report the example finished.  The returned pair is the event
trace and the error, `none` meaning the `Ok(())` return. -/
def runScore (config : ScoreConfig) (spawn : Nat → SpawnOutcome)
    (wait : Nat → WaitOutcome) : List Event × Option RunError :=
  let s := spawnLoop config.apps 0 spawn
  match s.2.2 with
  | some e => (s.1, some e)
  | none =>
    let w := waitLoop s.2.1 wait
    match w.2 with
    | some e => (s.1 ++ w.1, some e)
    | none => (s.1 ++ w.1 ++ [.exampleFinished config.name], none)

/-- The children vector `run_score` builds when every spawn succeeds:
1-based indices paired with the apps' paths, in spawn order. -/
def childrenOf (apps : List AppConfig) (i : Nat) : List (Nat × String) :=
  match apps with
  | [] => []
  | app :: rest => (i + 1, app.path) :: childrenOf rest (i + 1)

/-- The run loop of `main` (main.rs lines 145-147): each selected example in
selection order, aborting at the first `run_score` failure (the `?`
operator).  The oracles are additionally keyed by the example index.
`configs[index]` indexing is modeled by `getD`; the selector only produces
in-range indices. -/
def runSelected (configs : List ScoreConfig) (selected : List Nat)
    (spawn : Nat → Nat → SpawnOutcome) (wait : Nat → Nat → WaitOutcome) :
    Option RunError :=
  match selected with
  | [] => none
  | idx :: rest =>
    match (runScore (configs.getD idx ⟨"", "", []⟩) (spawn idx) (wait idx)).2 with
    | some e => some e
    | none => runSelected configs rest spawn wait

/-- The process exit behavior of `main` returning `anyhow::Result`: `Ok` is
exit status 0, any error is a non-zero exit. -/
def exitCode (r : Option RunError) : Nat :=
  match r with
  | none => 0
  | some _ => 1

/-- A delay produces only `delayWait` events. -/
lemma mem_delayEvents (idx : Nat) (o : Option Nat) (e : Event)
    (h : e ∈ delayEvents idx o) : ∃ d, e = .delayWait idx d := by
  cases o with
  | none => exact absurd h (List.not_mem_nil e)
  | some d =>
    by_cases hd : d > 0
    · simp only [delayEvents, if_pos hd] at h
      exact ⟨d, List.mem_singleton.mp h⟩
    · simp only [delayEvents, if_neg hd] at h
      exact absurd h (List.not_mem_nil e)

/-- When every spawn succeeds, the spawn loop builds the full children
vector and reports no error. -/
lemma spawnLoop_all_ok (spawn : Nat → SpawnOutcome) (h : ∀ j, spawn j = .ok) :
    ∀ (apps : List AppConfig) (i : Nat),
      (spawnLoop apps i spawn).2.1 = childrenOf apps i ∧
      (spawnLoop apps i spawn).2.2 = none := by
  intro apps
  induction apps with
  | nil => intro i; exact ⟨rfl, rfl⟩
  | cons app rest ih =>
    intro i
    simp only [spawnLoop, h (i + 1), childrenOf]
    exact ⟨by rw [(ih (i + 1)).1], (ih (i + 1)).2⟩

/-- When every wait reports an exit (of either status), the wait loop
reports every child finished, in order, and no error. -/
lemma waitLoop_all_exited (wait : Nat → WaitOutcome)
    (h : ∀ j, ∃ b, wait j = .exited b) :
    ∀ children, (waitLoop children wait).1 =
        children.map (fun c => Event.appFinished c.1 c.2) ∧
      (waitLoop children wait).2 = none := by
  intro children
  induction children with
  | nil => exact ⟨rfl, rfl⟩
  | cons c rest ih =>
    obtain ⟨idx, path⟩ := c
    obtain ⟨b, hb⟩ := h idx
    simp only [waitLoop, hb, List.map_cons]
    exact ⟨by rw [ih.1], ih.2⟩

/-- Every position of the app list appears in the children vector with its
1-based index and path. -/
lemma childrenOf_mem (apps : List AppConfig) :
    ∀ (i k : Nat) (hk : k < apps.length),
      (i + 1 + k, (apps.get ⟨k, hk⟩).path) ∈ childrenOf apps i := by
  induction apps with
  | nil => intro i k hk; exact absurd hk (Nat.not_lt_zero k)
  | cons app rest ih =>
    intro i k hk
    cases k with
    | zero => exact List.mem_cons_self _ _
    | succ k2 =>
      refine List.mem_cons_of_mem _ ?_
      have harith : i + 1 + (k2 + 1) = i + 1 + 1 + k2 := by omega
      rw [harith]
      exact ih (i + 1) k2 (Nat.lt_of_succ_lt_succ hk)

/-- The full shape of `run_score` when every spawn succeeds and every child
exits, with either status. -/
lemma runScore_all_ok (c : ScoreConfig) (sp : Nat → SpawnOutcome)
    (w : Nat → WaitOutcome) (hsp : ∀ j, sp j = .ok)
    (hw : ∀ j, ∃ b, w j = .exited b) :
    runScore c sp w =
      ((spawnLoop c.apps 0 sp).1 ++
        (childrenOf c.apps 0).map (fun p => Event.appFinished p.1 p.2) ++
        [.exampleFinished c.name], none) := by
  have hs := spawnLoop_all_ok sp hsp c.apps 0
  have hwl := waitLoop_all_exited w hw (childrenOf c.apps 0)
  simp only [runScore, hs.1, hs.2, hwl.1, hwl.2]

/-- Claim C1: when the OS spawns every app and every child can be waited on,
a non-zero (failure) exit status of any child changes nothing: `run_score`
returns no error whatever the per-child success flags are, each app is
reported finished, the example is reported finished, the whole selected run
returns no error and the process exit status is success (0). -/
theorem runner_child_failure_not_an_error (configs : List ScoreConfig)
    (selected : List Nat) (spawn : Nat → Nat → SpawnOutcome)
    (wait : Nat → Nat → WaitOutcome)
    (hspawn : ∀ e i, spawn e i = .ok)
    (hwait : ∀ e i, ∃ b, wait e i = .exited b) :
    (∀ c (sp : Nat → SpawnOutcome) (w : Nat → WaitOutcome),
      (∀ j, sp j = .ok) → (∀ j, ∃ b, w j = .exited b) →
      (runScore c sp w).2 = none ∧
      Event.exampleFinished c.name ∈ (runScore c sp w).1 ∧
      ∀ k (hk : k < c.apps.length),
        Event.appFinished (k + 1) ((c.apps.get ⟨k, hk⟩).path) ∈ (runScore c sp w).1) ∧
    runSelected configs selected spawn wait = none ∧
    exitCode (runSelected configs selected spawn wait) = 0 := by
  have core : ∀ c (sp : Nat → SpawnOutcome) (w : Nat → WaitOutcome),
      (∀ j, sp j = .ok) → (∀ j, ∃ b, w j = .exited b) →
      (runScore c sp w).2 = none ∧
      Event.exampleFinished c.name ∈ (runScore c sp w).1 ∧
      ∀ k (hk : k < c.apps.length),
        Event.appFinished (k + 1) ((c.apps.get ⟨k, hk⟩).path) ∈ (runScore c sp w).1 := by
    intro c sp w hsp hw
    rw [runScore_all_ok c sp w hsp hw]
    refine ⟨rfl, ?_, ?_⟩
    · exact List.mem_append.mpr (Or.inr (List.mem_singleton.mpr rfl))
    · intro k hk
      refine List.mem_append.mpr (Or.inl (List.mem_append.mpr (Or.inr ?_)))
      have hmem := childrenOf_mem c.apps 0 k hk
      have harith : 0 + 1 + k = k + 1 := by omega
      rw [harith] at hmem
      exact List.mem_map.mpr ⟨(k + 1, (c.apps.get ⟨k, hk⟩).path), hmem, rfl⟩
  have hrs : runSelected configs selected spawn wait = none := by
    induction selected with
    | nil => rfl
    | cons idx rest ih =>
      simp only [runSelected,
        (core (configs.getD idx ⟨"", "", []⟩) (spawn idx) (wait idx)
          (hspawn idx) (hwait idx)).1]
      exact ih
  refine ⟨core, hrs, ?_⟩
  rw [hrs]
  rfl

theorem runner_child_failure_not_an_error_witness :
    runSelected [⟨"x", "d", [⟨"/bin/false", none, [], [], none⟩]⟩] [0]
      (fun _ _ => .ok) (fun _ _ => .exited false) = none ∧
    exitCode (runSelected [⟨"x", "d", [⟨"/bin/false", none, [], [], none⟩]⟩] [0]
      (fun _ _ => .ok) (fun _ _ => .exited false)) = 0 :=
  ⟨(runner_child_failure_not_an_error
      [⟨"x", "d", [⟨"/bin/false", none, [], [], none⟩]⟩] [0]
      (fun _ _ => .ok) (fun _ _ => .exited false)
      (fun _ _ => rfl) (fun _ _ => ⟨false, rfl⟩)).2.1,
   (runner_child_failure_not_an_error
      [⟨"x", "d", [⟨"/bin/false", none, [], [], none⟩]⟩] [0]
      (fun _ _ => .ok) (fun _ _ => .exited false)
      (fun _ _ => rfl) (fun _ _ => ⟨false, rfl⟩)).2.2⟩

/-- The spawn loop emits neither kill events (there is no kill call) nor
finished events (those belong to the wait phase). -/
lemma spawnLoop_no_kill_no_finished (spawn : Nat → SpawnOutcome) :
    ∀ (apps : List AppConfig) (i : Nat) (e : Event),
      e ∈ (spawnLoop apps i spawn).1 →
      e.isKill = false ∧ e.isFinishedApp = false := by
  intro apps
  induction apps with
  | nil => intro i e he; exact absurd he (List.not_mem_nil e)
  | cons app rest ih =>
    intro i e he
    cases hs : spawn (i + 1) with
    | fail =>
      simp only [spawnLoop, hs] at he
      rcases List.mem_append.mp he with h1 | h2
      · obtain ⟨d, rfl⟩ := mem_delayEvents _ _ _ h1
        exact ⟨rfl, rfl⟩
      · rw [List.mem_singleton.mp h2]
        exact ⟨rfl, rfl⟩
    | ok =>
      simp only [spawnLoop, hs] at he
      rcases List.mem_append.mp he with h12 | h3
      · rcases List.mem_append.mp h12 with h1 | h2
        · obtain ⟨d, rfl⟩ := mem_delayEvents _ _ _ h1
          exact ⟨rfl, rfl⟩
        · rcases List.mem_cons.mp h2 with rfl | h2b
          · exact ⟨rfl, rfl⟩
          · rw [List.mem_singleton.mp h2b]
            exact ⟨rfl, rfl⟩
      · exact ih (i + 1) e h3

/-- When the spawns up to position `m` succeed and the spawn at `m` fails,
the spawn loop stops with the spawn error naming app `m` (1-based, with its
path), and every `appSpawned` event carries a strictly smaller index. -/
lemma spawnLoop_fail (spawn : Nat → SpawnOutcome) :
    ∀ (apps : List AppConfig) (i m : Nat) (hm : m < apps.length),
      spawn (i + 1 + m) = .fail →
      (∀ r, r < m → spawn (i + 1 + r) = .ok) →
      (spawnLoop apps i spawn).2.2 =
        some (.spawnError (i + 1 + m) ((apps.get ⟨m, hm⟩).path)) ∧
      ∀ j p, Event.appSpawned j p ∈ (spawnLoop apps i spawn).1 → j < i + 1 + m := by
  intro apps
  induction apps with
  | nil => intro i m hm; exact absurd hm (Nat.not_lt_zero m)
  | cons app rest ih =>
    intro i m hm hfail hok
    cases m with
    | zero =>
      have hf : spawn (i + 1) = .fail := by
        rw [show i + 1 = i + 1 + 0 from rfl]
        exact hfail
      simp only [spawnLoop, hf]
      refine ⟨rfl, ?_⟩
      intro j p hj
      rcases List.mem_append.mp hj with h1 | h2
      · obtain ⟨d, hd⟩ := mem_delayEvents _ _ _ h1
        exact absurd hd (by intro habs; exact Event.noConfusion habs)
      · exact absurd (List.mem_singleton.mp h2) (by intro habs; exact Event.noConfusion habs)
    | succ m2 =>
      have hok0 : spawn (i + 1) = .ok := by
        rw [show i + 1 = i + 1 + 0 from rfl]
        exact hok 0 (Nat.succ_pos m2)
      have harith : i + 1 + (m2 + 1) = i + 1 + 1 + m2 := by omega
      have ih2 := ih (i + 1) m2 (Nat.lt_of_succ_lt_succ hm)
        (by rw [← harith]; exact hfail)
        (fun r hr => by
          rw [show i + 1 + 1 + r = i + 1 + (r + 1) from by omega]
          exact hok (r + 1) (Nat.succ_lt_succ hr))
      simp only [spawnLoop, hok0]
      constructor
      · rw [harith]
        exact ih2.1
      · intro j p hj
        rcases List.mem_append.mp hj with h12 | h3
        · rcases List.mem_append.mp h12 with h1 | h2
          · obtain ⟨d, hd⟩ := mem_delayEvents _ _ _ h1
            exact absurd hd (by intro habs; exact Event.noConfusion habs)
          · rcases List.mem_cons.mp h2 with hb | h2b
            · exact absurd hb (by intro habs; exact Event.noConfusion habs)
            · rw [List.mem_singleton] at h2b
              injection h2b with hj2 hp2
              omega
        · have := ih2.2 j p h3
          omega

/-- Claim C2: if the spawns of the apps before 0-based position `k` succeed
and the spawn at position `k` fails, `run_score` aborts at once with the
spawn error naming the 1-based index `k + 1` and that app's path; no app
after it is ever spawned (every `appSpawned` index is at most `k`), no
already-spawned child is terminated by the runner (the trace is kill-free),
and the wait phase is never entered (no child is reported finished). -/
theorem runner_spawn_failure_aborts (c : ScoreConfig) (sp : Nat → SpawnOutcome)
    (w : Nat → WaitOutcome) (k : Nat) (hk : k < c.apps.length)
    (hfail : sp (k + 1) = .fail)
    (hok : ∀ j, j < k → sp (j + 1) = .ok) :
    (runScore c sp w).2 = some (.spawnError (k + 1) ((c.apps.get ⟨k, hk⟩).path)) ∧
    (∀ j p, Event.appSpawned j p ∈ (runScore c sp w).1 → j < k + 1) ∧
    (∀ e, e ∈ (runScore c sp w).1 → e.isKill = false) ∧
    (∀ j p, Event.appFinished j p ∉ (runScore c sp w).1) := by
  have hsl := spawnLoop_fail sp c.apps 0 k hk
    (by rw [show 0 + 1 + k = k + 1 from by omega]; exact hfail)
    (fun r hr => by rw [show 0 + 1 + r = r + 1 from by omega]; exact hok r hr)
  have h22 : (spawnLoop c.apps 0 sp).2.2 =
      some (.spawnError (k + 1) ((c.apps.get ⟨k, hk⟩).path)) := by
    rw [hsl.1, show 0 + 1 + k = k + 1 from by omega]
  have heq : runScore c sp w = ((spawnLoop c.apps 0 sp).1,
      some (.spawnError (k + 1) ((c.apps.get ⟨k, hk⟩).path))) := by
    simp only [runScore, h22]
  rw [heq]
  refine ⟨rfl, ?_, ?_, ?_⟩
  · intro j p hj
    have := hsl.2 j p hj
    omega
  · intro e he
    exact (spawnLoop_no_kill_no_finished sp c.apps 0 e he).1
  · intro j p hj
    have := (spawnLoop_no_kill_no_finished sp c.apps 0 _ hj).2
    exact Bool.noConfusion this

theorem runner_spawn_failure_aborts_witness :
    (runScore ⟨"x", "d", [⟨"/bin/a", none, [], [], none⟩, ⟨"/bin/b", none, [], [], none⟩]⟩
        (fun j => if j = 2 then .fail else .ok) (fun _ => .exited true)).2 =
      some (.spawnError 2 "/bin/b") :=
  (runner_spawn_failure_aborts
    ⟨"x", "d", [⟨"/bin/a", none, [], [], none⟩, ⟨"/bin/b", none, [], [], none⟩]⟩
    (fun j => if j = 2 then .fail else .ok) (fun _ => .exited true) 1
    (by decide) (by rfl) (by decide)).1
